import Mathlib

/-!
Verification of the SSH connection pool and command executor of
`nofx-ops-panel/backend/app/services/ssh_executor.py`, together with the
pool-size configuration of `backend/app/config.py`.

Sessions (paramiko `SSHClient` objects) are modelled by natural-number
identifiers; object identity becomes equality of identifiers, with a
`next_id` counter standing for allocation of a fresh object.  The liveness
probe (`client.get_transport()` / `transport.is_active()`, including the
possibility that the probe raises) is modelled by an oracle
`alive : Nat → Bool`; `alive c = false` covers both the inactive-transport
branch and the bare `except:` branch, since both remove the client from the
pool and continue the scan.  Remote command execution is modelled by an
oracle returning either raw stdout/stderr byte lists and an exit status, or
the message of a raised exception.
-/

namespace SSH

/-- State of `SSHConnectionPool`: `max_connections`, the list `self.pool`
(in insertion order, as a Python list), the set `self.in_use`, and a
fresh-identifier counter modelling allocation of new client objects. -/
structure PoolState where
  max_connections : Nat
  pool : List Nat
  in_use : Finset Nat
  next_id : Nat
deriving DecidableEq

/-- `SSHConnectionPool.__init__(max_connections)`: empty pool, empty in-use
set.  (In the source the parameter defaults to 5.) -/
def SSHConnectionPool_mk (max_connections : Nat) : PoolState :=
  { max_connections := max_connections, pool := [], in_use := ∅, next_id := 0 }

/-- The scan loop of `get_connection`, written literally against CPython's
list-iterator semantics: the iterator holds an index `i` into the live list
`pool`; each step yields `pool[i]` if `i < len(pool)` and then moves to
`i + 1` of the (possibly mutated) list.  A client not in `in_use` is probed:
if live, the loop returns it with the pool as mutated so far; if dead (or
the probe raises), `self.pool.remove(client)` deletes it, shifting every
later element down by one before the iterator advances. -/
def scanFrom (alive : Nat → Bool) (u : Finset Nat) (pool : List Nat) (i : Nat) :
    List Nat × Option Nat :=
  if h : i < pool.length then
    if pool.get ⟨i, h⟩ ∈ u then
      scanFrom alive u pool (i + 1)
    else if alive (pool.get ⟨i, h⟩) then
      (pool, some (pool.get ⟨i, h⟩))
    else
      scanFrom alive u (pool.erase (pool.get ⟨i, h⟩)) (i + 1)
  else
    (pool, none)
termination_by pool.length - i
decreasing_by
  · omega
  · have hlen : (pool.erase (pool.get ⟨i, h⟩)).length = pool.length - 1 :=
      List.length_erase_of_mem (List.get_mem pool i h)
    omega

/-- The same scan, phrased on the iterator's position as a split of the pool
into the already-passed prefix `kept` and the unvisited suffix `rest`.
Removing the dead head of the suffix shifts the suffix left, so the element
right after it (`d`) slides into the already-passed region unprobed.  This
is the computable form used by `get_connection`; the theorem
`scanFrom_eq_scanIter` below proves it equal to the index-based `scanFrom`
on every duplicate-free pool. -/
def scanIter (alive : Nat → Bool) (u : Finset Nat) : List Nat → List Nat → List Nat × Option Nat
  | kept, [] => (kept, none)
  | kept, c :: rest =>
    if c ∈ u then
      scanIter alive u (kept ++ [c]) rest
    else if alive c then
      (kept ++ c :: rest, some c)
    else
      match rest with
      | [] => (kept, none)
      | d :: rest2 => scanIter alive u (kept ++ [d]) rest2

/-- Result of `get_connection`: either a client identifier or the message of
the raised exception, together with the pool state after the call (the scan
mutates `self.pool` even on the failure path). -/
structure AcquireOut where
  result : Except String Nat
  state : PoolState

/-- `SSHConnectionPool.get_connection`: scan for a reusable live idle
client; otherwise create a new client when `len(self.pool) <
self.max_connections`, else raise `Exception("连接池已满")`. -/
def get_connection (alive : Nat → Bool) (st : PoolState) : AcquireOut :=
  let s := scanIter alive st.in_use [] st.pool
  match s.2 with
  | some c =>
    { result := Except.ok c
      state := { st with pool := s.1, in_use := insert c st.in_use } }
  | none =>
    if s.1.length < st.max_connections then
      { result := Except.ok st.next_id
        state := { st with pool := s.1 ++ [st.next_id]
                           in_use := insert st.next_id st.in_use
                           next_id := st.next_id + 1 } }
    else
      { result := Except.error "连接池已满", state := { st with pool := s.1 } }

/-- `SSHConnectionPool.release_connection`: remove the client from
`self.in_use` when present, otherwise do nothing. -/
def release_connection (st : PoolState) (c : Nat) : PoolState :=
  if c ∈ st.in_use then { st with in_use := st.in_use.erase c } else st

/-- `SSHConnectionPool.close_all`: close every client (best effort) and
clear both `self.pool` and `self.in_use`. -/
def close_all (st : PoolState) : PoolState :=
  { st with pool := [], in_use := ∅ }

/-- Continuation-byte test for UTF-8 decoding (`0x80 ≤ b ≤ 0xBF`). -/
def isCont (b : Nat) : Bool := 0x80 ≤ b && b ≤ 0xBF

/-- Second-byte range for a three-byte UTF-8 sequence with lead byte `b`
(`0xE0` excludes overlong forms, `0xED` excludes surrogates). -/
def isCont3 (b b2 : Nat) : Bool :=
  if b = 0xE0 then 0xA0 ≤ b2 && b2 ≤ 0xBF
  else if b = 0xED then 0x80 ≤ b2 && b2 ≤ 0x9F
  else isCont b2

/-- Second-byte range for a four-byte UTF-8 sequence with lead byte `b`
(`0xF0` excludes overlong forms, `0xF4` caps at U+10FFFF). -/
def isCont4 (b b2 : Nat) : Bool :=
  if b = 0xF0 then 0x90 ≤ b2 && b2 ≤ 0xBF
  else if b = 0xF4 then 0x80 ≤ b2 && b2 ≤ 0x8F
  else isCont b2

/-- `bytes.decode('utf-8', errors='ignore')` as used on the command's
stdout and stderr: standard UTF-8 decoding where every ill-formed portion
(a stray or invalid lead byte, the maximal valid prefix of a sequence whose
next byte fails its range check, or a sequence truncated at end of input)
is silently dropped and decoding resumes at the next byte. -/
def utf8IgnoreAux : List Nat → List Char
  | [] => []
  | b :: t =>
    if b < 0x80 then
      Char.ofNat b :: utf8IgnoreAux t
    else if b < 0xC2 then
      utf8IgnoreAux t
    else if b ≤ 0xDF then
      match t with
      | [] => []
      | b2 :: t2 =>
        if isCont b2 then
          Char.ofNat ((b - 0xC0) * 0x40 + (b2 - 0x80)) :: utf8IgnoreAux t2
        else
          utf8IgnoreAux (b2 :: t2)
    else if b ≤ 0xEF then
      match t with
      | [] => []
      | b2 :: t2 =>
        if isCont3 b b2 then
          match t2 with
          | [] => []
          | b3 :: t3 =>
            if isCont b3 then
              Char.ofNat ((b - 0xE0) * 0x1000 + (b2 - 0x80) * 0x40 + (b3 - 0x80)) ::
                utf8IgnoreAux t3
            else
              utf8IgnoreAux (b3 :: t3)
        else
          utf8IgnoreAux (b2 :: t2)
    else if b ≤ 0xF4 then
      match t with
      | [] => []
      | b2 :: t2 =>
        if isCont4 b b2 then
          match t2 with
          | [] => []
          | b3 :: t3 =>
            if isCont b3 then
              match t3 with
              | [] => []
              | b4 :: t4 =>
                if isCont b4 then
                  Char.ofNat ((b - 0xF0) * 0x40000 + (b2 - 0x80) * 0x1000 +
                      (b3 - 0x80) * 0x40 + (b4 - 0x80)) :: utf8IgnoreAux t4
                else
                  utf8IgnoreAux (b4 :: t4)
            else
              utf8IgnoreAux (b3 :: t3)
        else
          utf8IgnoreAux (b2 :: t2)
    else
      utf8IgnoreAux t
termination_by bs => bs.length
decreasing_by all_goals (simp; try omega)

/-- String form of `utf8IgnoreAux`. -/
def utf8IgnoreStr (bs : List Nat) : String := String.mk (utf8IgnoreAux bs)

/-- The Unicode replacement character U+FFFD. -/
def replacementChar : Char := Char.ofNat 0xFFFD

/-- Modelled from the spec: UTF-8 decoding with lossy substitution, "each
undecodable byte replaced by a substitution character" — the decoder the
spec's words describe, for comparison with the source's
`errors='ignore'` decoder `utf8IgnoreAux`.  Identical to `utf8IgnoreAux`
except that every dropped byte contributes one U+FFFD to the output. -/
def utf8SubstituteAux : List Nat → List Char
  | [] => []
  | b :: t =>
    if b < 0x80 then
      Char.ofNat b :: utf8SubstituteAux t
    else if b < 0xC2 then
      replacementChar :: utf8SubstituteAux t
    else if b ≤ 0xDF then
      match t with
      | [] => [replacementChar]
      | b2 :: t2 =>
        if isCont b2 then
          Char.ofNat ((b - 0xC0) * 0x40 + (b2 - 0x80)) :: utf8SubstituteAux t2
        else
          replacementChar :: utf8SubstituteAux (b2 :: t2)
    else if b ≤ 0xEF then
      match t with
      | [] => [replacementChar]
      | b2 :: t2 =>
        if isCont3 b b2 then
          match t2 with
          | [] => [replacementChar, replacementChar]
          | b3 :: t3 =>
            if isCont b3 then
              Char.ofNat ((b - 0xE0) * 0x1000 + (b2 - 0x80) * 0x40 + (b3 - 0x80)) ::
                utf8SubstituteAux t3
            else
              replacementChar :: replacementChar :: utf8SubstituteAux (b3 :: t3)
        else
          replacementChar :: utf8SubstituteAux (b2 :: t2)
    else if b ≤ 0xF4 then
      match t with
      | [] => [replacementChar]
      | b2 :: t2 =>
        if isCont4 b b2 then
          match t2 with
          | [] => [replacementChar, replacementChar]
          | b3 :: t3 =>
            if isCont b3 then
              match t3 with
              | [] => [replacementChar, replacementChar, replacementChar]
              | b4 :: t4 =>
                if isCont b4 then
                  Char.ofNat ((b - 0xF0) * 0x40000 + (b2 - 0x80) * 0x1000 +
                      (b3 - 0x80) * 0x40 + (b4 - 0x80)) :: utf8SubstituteAux t4
                else
                  replacementChar :: replacementChar :: replacementChar :: utf8SubstituteAux (b4 :: t4)
            else
              replacementChar :: replacementChar :: utf8SubstituteAux (b3 :: t3)
        else
          replacementChar :: utf8SubstituteAux (b2 :: t2)
    else
      replacementChar :: utf8SubstituteAux t
termination_by bs => bs.length
decreasing_by all_goals (simp; try omega)

/-- String form of `utf8SubstituteAux`. -/
def utf8SubstituteStr (bs : List Nat) : String := String.mk (utf8SubstituteAux bs)

/-- Result of `SSHExecutor.execute`: the `(stdout, stderr, exit_code)`
triple and the pool state after the call. -/
structure ExecOut where
  stdout : String
  stderr : String
  exit_code : Int
  state : PoolState

/-- `SSHExecutor.execute(command, timeout)`.  The remote side is the oracle
`run`, mapping client, command and timeout either to raw stdout and stderr
byte lists plus the exit status, or to the message of a raised exception
(connection drop, timeout, channel failure, ...).  `_get_client` acquires a
client from the pool; its `finally` block releases the client whenever one
was assigned, so the failure path of `get_connection` (where `client` is
still `None`) performs no release, while any failure after acquisition
does.  The outer `try/except` converts every exception into the triple
`("", str(e), -1)`. -/
def execute (alive : Nat → Bool)
    (run : Nat → String → Int → Except String (List Nat × List Nat × Int))
    (st : PoolState) (command : String) (timeout : Int) : ExecOut :=
  match get_connection alive st with
  | { result := Except.error e, state := st1 } =>
    { stdout := "", stderr := e, exit_code := -1, state := st1 }
  | { result := Except.ok c, state := st1 } =>
    match run c command timeout with
    | Except.ok (out_bytes, err_bytes, code) =>
      { stdout := utf8IgnoreStr out_bytes, stderr := utf8IgnoreStr err_bytes,
        exit_code := code, state := release_connection st1 c }
    | Except.error e =>
      { stdout := "", stderr := e, exit_code := -1, state := release_connection st1 c }

/-- `loop.run_in_executor(None, f, args...)`, awaited: the event loop runs
the blocking call on a worker thread and hands its return value back. -/
def run_in_executor {α β : Type} (f : α → β) (a : α) : β := f a

/-- `SSHExecutor.execute_async(command, timeout)`: offloads
`self.execute(command, timeout)` through `run_in_executor` and awaits the
result. -/
def execute_async (alive : Nat → Bool)
    (run : Nat → String → Int → Except String (List Nat × List Nat × Int))
    (st : PoolState) (command : String) (timeout : Int) : ExecOut :=
  run_in_executor (fun p : String × Int => execute alive run st p.1 p.2) (command, timeout)

/-- `config.SSH_POOL_MAX_CONNECTIONS = int(os.getenv("SSH_POOL_MAX_CONNECTIONS", "5"))`:
the environment variable, modelled as an optional already-parsed value,
with default 5. -/
def sshPoolMaxConnections (env : Option Nat) : Nat := env.getD 5

/-- The pool built by `SSHExecutor.__init__`: `self.pool =
SSHConnectionPool()` — called with no argument, so the parameter default
`max_connections = 5` applies whatever the environment holds. -/
def sshExecutor_pool : PoolState := SSHConnectionPool_mk 5

/-- One pool operation: an acquire under a given liveness oracle, or a
release of a given client. -/
inductive PoolOp where
  | acquire (alive : Nat → Bool)
  | release (client : Nat)

/-- Apply one pool operation to a state.  A failed acquire leaves the state
the scan produced (the raised exception discards only the return value). -/
def applyOp (st : PoolState) : PoolOp → PoolState
  | PoolOp.acquire alive => (get_connection alive st).state
  | PoolOp.release c => release_connection st c

/-- Run a sequence of pool operations from a state. -/
def runOps (st : PoolState) (ops : List PoolOp) : PoolState := ops.foldl applyOp st

/-- The idle clients: members of `self.pool` not marked in `self.in_use`. -/
def idleSessions (st : PoolState) : List Nat :=
  st.pool.filter (fun c => c ∉ st.in_use)

/-- Pool well-formedness: the pool respects its bound, `in_use` only holds
pool members, the pool list is duplicate-free (distinct client objects),
and every pool member was allocated before `next_id`. -/
def PoolInv (st : PoolState) : Prop :=
  st.pool.length ≤ st.max_connections ∧
  (∀ c ∈ st.in_use, c ∈ st.pool) ∧
  st.pool.Nodup ∧
  (∀ c ∈ st.pool, c < st.next_id)

instance (st : PoolState) : Decidable (PoolInv st) := by
  unfold PoolInv
  infer_instance

/-! ### Facts about the scan loop -/
theorem scanIter_fst_sublist (alive : Nat → Bool) (u : Finset Nat) :
    ∀ kept rest, List.Sublist (scanIter alive u kept rest).1 (kept ++ rest) := by
  intro kept rest
  induction kept, rest using scanIter.induct alive u with
  | case1 kept => simp [scanIter]
  | case2 kept c rest h ih =>
    rw [scanIter.eq_def]
    simp only [if_pos h]
    have heq : (kept ++ [c]) ++ rest = kept ++ c :: rest := by simp
    exact heq ▸ ih
  | case3 kept c rest h h2 =>
    rw [scanIter.eq_def]
    simp [h, h2]
  | case4 kept c h h2 =>
    rw [scanIter.eq_def]
    simp only [if_neg h, if_neg h2]
    have h3 : List.Sublist (kept ++ []) (kept ++ [c]) :=
      List.Sublist.append_left (List.sublist_cons_self c []) kept
    simp only [List.append_nil] at h3
    exact h3
  | case5 kept c h h2 d rest2 ih =>
    rw [scanIter.eq_def]
    simp only [if_neg h, if_neg h2]
    have heq : (kept ++ [d]) ++ rest2 = kept ++ d :: rest2 := by simp
    exact (heq ▸ ih).trans
      (List.Sublist.append_left (List.sublist_cons_self c (d :: rest2)) kept)

theorem scanIter_mem_of_inUse (alive : Nat → Bool) (u : Finset Nat) {x : Nat} (hx : x ∈ u) :
    ∀ kept rest, x ∈ kept ++ rest → x ∈ (scanIter alive u kept rest).1 := by
  intro kept rest
  induction kept, rest using scanIter.induct alive u with
  | case1 kept => intro hm; simpa [scanIter] using hm
  | case2 kept c rest h ih =>
    intro hm
    rw [scanIter.eq_def]
    simp only [if_pos h]
    apply ih
    simp only [List.append_assoc, List.singleton_append]
    exact hm
  | case3 kept c rest h h2 =>
    intro hm
    rw [scanIter.eq_def]
    simpa [h, h2] using hm
  | case4 kept c h h2 =>
    intro hm
    rw [scanIter.eq_def]
    simp only [if_neg h, if_neg h2]
    have hxc : x ≠ c := fun he => h (he ▸ hx)
    simp only [List.mem_append, List.mem_singleton] at hm
    rcases hm with hm | hm
    · exact hm
    · exact absurd hm hxc
  | case5 kept c h h2 d rest2 ih =>
    intro hm
    rw [scanIter.eq_def]
    simp only [if_neg h, if_neg h2]
    apply ih
    have hxc : x ≠ c := fun he => h (he ▸ hx)
    simp only [List.append_assoc, List.singleton_append]
    simp only [List.mem_append, List.mem_cons] at hm ⊢
    tauto

theorem scanIter_some (alive : Nat → Bool) (u : Finset Nat) :
    ∀ kept rest c, (scanIter alive u kept rest).2 = some c →
      c ∉ u ∧ alive c = true ∧ c ∈ (scanIter alive u kept rest).1 := by
  intro kept rest
  induction kept, rest using scanIter.induct alive u with
  | case1 kept => intro c hc; simp [scanIter] at hc
  | case2 kept c rest h ih =>
    intro c' hc'
    rw [scanIter.eq_def] at hc' ⊢
    simp only [if_pos h] at hc' ⊢
    exact ih c' hc'
  | case3 kept c rest h h2 =>
    intro c' hc'
    rw [scanIter.eq_def] at hc' ⊢
    simp only [if_neg h, if_pos h2] at hc' ⊢
    cases hc'
    refine ⟨h, h2, ?_⟩
    simp
  | case4 kept c h h2 =>
    intro c' hc'
    rw [scanIter.eq_def] at hc'
    simp [h, h2] at hc'
  | case5 kept c h h2 d rest2 ih =>
    intro c' hc'
    rw [scanIter.eq_def] at hc' ⊢
    simp only [if_neg h, if_neg h2] at hc' ⊢
    exact ih c' hc'

theorem scanIter_nil (alive : Nat → Bool) (u : Finset Nat) (kept : List Nat) :
    scanIter alive u kept [] = (kept, none) := rfl

theorem scanIter_cons (alive : Nat → Bool) (u : Finset Nat) (kept : List Nat)
    (c : Nat) (rest : List Nat) :
    scanIter alive u kept (c :: rest) =
      if c ∈ u then
        scanIter alive u (kept ++ [c]) rest
      else if alive c then
        (kept ++ c :: rest, some c)
      else
        match rest with
        | [] => (kept, none)
        | d :: rest2 => scanIter alive u (kept ++ [d]) rest2 := by
  cases rest with
  | nil => rw [scanIter.eq_2]
  | cons d rest2 => rw [scanIter.eq_3]

theorem get_append_cons (l₁ : List Nat) (a : Nat) (l₂ : List Nat)
    (h : l₁.length < (l₁ ++ a :: l₂).length) :
    (l₁ ++ a :: l₂).get ⟨l₁.length, h⟩ = a := by
  simp [List.get_eq_getElem, List.getElem_append_right]

theorem scanFrom_eq_scanIter_aux (alive : Nat → Bool) (u : Finset Nat) :
    ∀ (n : Nat) (kept rest : List Nat), rest.length ≤ n → (kept ++ rest).Nodup →
      scanFrom alive u (kept ++ rest) kept.length = scanIter alive u kept rest := by
  intro n
  induction n with
  | zero =>
    intro kept rest hlen hnd
    have : rest = [] := List.eq_nil_of_length_eq_zero (Nat.le_zero.mp hlen)
    subst this
    rw [scanFrom.eq_def, scanIter_nil, dif_neg (by simp)]
    simp
  | succ n ih =>
    intro kept rest hlen hnd
    match rest with
    | [] =>
      rw [scanFrom.eq_def, scanIter_nil, dif_neg (by simp)]
      simp
    | c :: rest' =>
      have hidx : kept.length < (kept ++ c :: rest').length := by simp
      rw [scanFrom.eq_def]
      simp only [dif_pos hidx, get_append_cons]
      by_cases hcu : c ∈ u
      · simp only [if_pos hcu]
        have h1 : kept.length + 1 = (kept ++ [c]).length := by simp
        have h2 : kept ++ c :: rest' = (kept ++ [c]) ++ rest' := by simp
        rw [h1, h2, ih (kept ++ [c]) rest' (by simpa using Nat.le_of_succ_le_succ hlen)
          (by simpa using h2 ▸ hnd)]
        rw [scanIter_cons]
        simp [hcu]
      · by_cases hal : alive c = true
        · simp only [if_neg hcu, if_pos hal]
          rw [scanIter_cons]
          simp [hcu, hal]
        · simp only [if_neg hcu, if_neg hal]
          have hck : c ∉ kept := by
            have := (List.nodup_append.mp hnd).2.2
            intro hc
            exact this hc (List.mem_cons_self c rest')
          have herase : (kept ++ c :: rest').erase c = kept ++ rest' := by
            rw [List.erase_append_right _ hck, List.erase_cons_head]
          rw [herase]
          match rest' with
          | [] =>
            rw [scanFrom.eq_def, scanIter_cons, dif_neg (by simp), if_neg hcu, if_neg hal]
            simp
          | d :: rest2 =>
            have h1 : kept.length + 1 = (kept ++ [d]).length := by simp
            have h2 : kept ++ d :: rest2 = (kept ++ [d]) ++ rest2 := by simp
            have hnd2 : ((kept ++ [d]) ++ rest2).Nodup := by
              rw [← h2]
              have hsub : List.Sublist (kept ++ d :: rest2) (kept ++ c :: d :: rest2) :=
                List.Sublist.append_left (List.sublist_cons_self c (d :: rest2)) kept
              exact List.Nodup.sublist hsub hnd
            rw [h1, h2, ih (kept ++ [d]) rest2 (by simp at hlen ⊢; omega) hnd2]
            rw [scanIter_cons, if_neg hcu, if_neg hal]

theorem scanFrom_eq_scanIter (alive : Nat → Bool) (u : Finset Nat) (pool : List Nat)
    (hnd : pool.Nodup) :
    scanFrom alive u pool 0 = scanIter alive u [] pool := by
  have := scanFrom_eq_scanIter_aux alive u pool.length [] pool (Nat.le_refl _) (by simpa using hnd)
  simpa using this


/-! ### Facts about get_connection and the pool invariant -/

theorem get_connection_ok (alive : Nat → Bool) (st : PoolState) (hinv : PoolInv st) (c : Nat)
    (hok : (get_connection alive st).result = Except.ok c) :
    c ∉ st.in_use ∧
    (get_connection alive st).state.in_use = insert c st.in_use ∧
    c ∈ (get_connection alive st).state.pool := by
  obtain ⟨hlen, hsub, hnd, hbound⟩ := hinv
  cases hs2 : (scanIter alive st.in_use [] st.pool).2 with
  | some c' =>
    simp only [get_connection, hs2] at hok ⊢
    cases hok
    obtain ⟨hcu, hca, hcm⟩ := scanIter_some alive st.in_use [] st.pool c hs2
    exact ⟨hcu, rfl, hcm⟩
  | none =>
    by_cases hfit : (scanIter alive st.in_use [] st.pool).1.length < st.max_connections
    · simp only [get_connection, hs2, if_pos hfit] at hok ⊢
      cases hok
      refine ⟨fun hmem => ?_, rfl, by simp⟩
      exact absurd (hbound _ (hsub _ hmem)) (Nat.lt_irrefl _)
    · simp only [get_connection, hs2, if_neg hfit] at hok
      cases hok

theorem get_connection_inv (alive : Nat → Bool) (st : PoolState) (hinv : PoolInv st) :
    PoolInv (get_connection alive st).state := by
  obtain ⟨hlen, hsub, hnd, hbound⟩ := hinv
  have hsl : List.Sublist (scanIter alive st.in_use [] st.pool).1 st.pool := by
    have := scanIter_fst_sublist alive st.in_use [] st.pool
    simpa using this
  have hmem : ∀ x ∈ st.in_use, x ∈ (scanIter alive st.in_use [] st.pool).1 := by
    intro x hx
    exact scanIter_mem_of_inUse alive st.in_use hx [] st.pool (by simp [hsub x hx])
  have hnd2 : (scanIter alive st.in_use [] st.pool).1.Nodup := List.Nodup.sublist hsl hnd
  have hbound2 : ∀ x ∈ (scanIter alive st.in_use [] st.pool).1, x < st.next_id :=
    fun x hx => hbound x (hsl.subset hx)
  cases hs2 : (scanIter alive st.in_use [] st.pool).2 with
  | some c =>
    obtain ⟨hcu, hca, hcm⟩ := scanIter_some alive st.in_use [] st.pool c hs2
    simp only [get_connection, hs2]
    refine ⟨Nat.le_trans hsl.length_le hlen, ?_, hnd2, hbound2⟩
    intro x hx
    rcases Finset.mem_insert.mp hx with h | h
    · exact h ▸ hcm
    · exact hmem x h
  | none =>
    by_cases hfit : (scanIter alive st.in_use [] st.pool).1.length < st.max_connections
    · simp only [get_connection, hs2, if_pos hfit]
      refine ⟨by simp; omega, ?_, ?_, ?_⟩
      · intro x hx
        rcases Finset.mem_insert.mp hx with h | h
        · simp [h]
        · simp [hmem x h]
      · refine List.Nodup.append hnd2 (List.nodup_singleton _) ?_
        intro x hx hx1
        rw [List.mem_singleton] at hx1
        exact absurd (hbound2 x hx) (by simp [hx1])
      · intro x hx
        rcases List.mem_append.mp hx with h | h
        · exact Nat.lt_succ_of_lt (hbound2 x h)
        · rw [List.mem_singleton] at h
          simp [h]
    · simp only [get_connection, hs2, if_neg hfit]
      exact ⟨Nat.le_trans hsl.length_le hlen, hmem, hnd2, hbound2⟩

theorem release_connection_inv (st : PoolState) (c : Nat) (hinv : PoolInv st) :
    PoolInv (release_connection st c) := by
  obtain ⟨hlen, hsub, hnd, hbound⟩ := hinv
  unfold release_connection
  by_cases hc : c ∈ st.in_use
  · simp only [if_pos hc]
    exact ⟨hlen, fun x hx => hsub x (Finset.mem_of_mem_erase hx), hnd, hbound⟩
  · simp only [if_neg hc]
    exact ⟨hlen, hsub, hnd, hbound⟩

theorem applyOp_inv (st : PoolState) (op : PoolOp) (hinv : PoolInv st) :
    PoolInv (applyOp st op) := by
  cases op with
  | acquire alive => exact get_connection_inv alive st hinv
  | release c => exact release_connection_inv st c hinv

theorem runOps_inv (st : PoolState) (ops : List PoolOp) (hinv : PoolInv st) :
    PoolInv (runOps st ops) := by
  induction ops generalizing st with
  | nil => exact hinv
  | cons op ops ih => exact ih (applyOp st op) (applyOp_inv st op hinv)

theorem SSHConnectionPool_mk_inv (m : Nat) : PoolInv (SSHConnectionPool_mk m) := by
  refine ⟨by simp [SSHConnectionPool_mk], by simp [SSHConnectionPool_mk], ?_, by simp [SSHConnectionPool_mk]⟩
  simp [SSHConnectionPool_mk]



theorem applyOp_max (st : PoolState) (op : PoolOp) :
    (applyOp st op).max_connections = st.max_connections := by
  cases op with
  | acquire alive =>
    show (get_connection alive st).state.max_connections = st.max_connections
    cases hs2 : (scanIter alive st.in_use [] st.pool).2 with
    | some c => simp [get_connection, hs2]
    | none =>
      by_cases hfit : (scanIter alive st.in_use [] st.pool).1.length < st.max_connections
      · simp [get_connection, hs2, hfit]
      · simp [get_connection, hs2, hfit]
  | release c =>
    show (release_connection st c).max_connections = st.max_connections
    unfold release_connection
    by_cases hc : c ∈ st.in_use
    · simp [hc]
    · simp [hc]

theorem runOps_max (st : PoolState) (ops : List PoolOp) :
    (runOps st ops).max_connections = st.max_connections := by
  induction ops generalizing st with
  | nil => rfl
  | cons op ops ih => exact (ih (applyOp st op)).trans (applyOp_max st op)

theorem idle_card_le (l : List Nat) (u : Finset Nat) (hsub : ∀ c ∈ u, c ∈ l) :
    (l.filter (fun c => c ∉ u)).length + u.card ≤ l.length := by
  have hcount := @List.length_eq_length_filter_add Nat l (fun c => decide (c ∈ u))
  have hcard : u.card ≤ (l.filter (fun c => decide (c ∈ u))).length := by
    have hss : u ⊆ (l.filter (fun c => decide (c ∈ u))).toFinset := by
      intro x hx
      simp only [List.mem_toFinset, List.mem_filter]
      exact ⟨hsub x hx, by simpa using hx⟩
    exact (Finset.card_le_card hss).trans (List.toFinset_card_le _)
  have hfun : (fun c : Nat => decide (c ∉ u)) = (fun c : Nat => ! decide (c ∈ u)) := by
    funext c
    simp [decide_not]
  calc (l.filter (fun c => c ∉ u)).length + u.card
      ≤ (l.filter (fun c => ! decide (c ∈ u))).length +
        (l.filter (fun c => decide (c ∈ u))).length := by rw [← hfun]; omega
    _ = l.length := by rw [Nat.add_comm]; exact (hcount.symm ▸ rfl)

/-! ### The claims -/

/-- C1: starting from a fresh pool, after any sequence of acquire/release
operations the number of idle clients plus the number of in-use clients is
at most `max_connections`; in the code's representation, `len(pool)` stays
at most `max_connections` and `in_use` stays a subset of `pool`. -/
theorem pool_capacity_invariant (m : Nat) (ops : List PoolOp) :
    (idleSessions (runOps (SSHConnectionPool_mk m) ops)).length +
      (runOps (SSHConnectionPool_mk m) ops).in_use.card ≤ m ∧
    (runOps (SSHConnectionPool_mk m) ops).pool.length ≤ m ∧
    (∀ c ∈ (runOps (SSHConnectionPool_mk m) ops).in_use,
      c ∈ (runOps (SSHConnectionPool_mk m) ops).pool) := by
  obtain ⟨hlen, hsub, hnd, _⟩ :=
    runOps_inv (SSHConnectionPool_mk m) ops (SSHConnectionPool_mk_inv m)
  have hmax : (runOps (SSHConnectionPool_mk m) ops).max_connections = m :=
    runOps_max (SSHConnectionPool_mk m) ops
  rw [hmax] at hlen
  refine ⟨?_, hlen, hsub⟩
  exact (idle_card_le _ _ hsub).trans hlen

/-- C4: `get_connection` raises (`PoolExhausted`, message `连接池已满`)
exactly when the scan finds no live idle client and the post-scan pool is
at capacity; in that case nothing is created and the state is completely
unchanged (at capacity no removal can have happened, because a removal
would leave the pool under capacity). -/
theorem pool_exhausted_iff (alive : Nat → Bool) (st : PoolState) (hinv : PoolInv st) :
    ((∃ e, (get_connection alive st).result = Except.error e) ↔
      ((scanIter alive st.in_use [] st.pool).2 = none ∧
        st.max_connections ≤ (scanIter alive st.in_use [] st.pool).1.length)) ∧
    ((∃ e, (get_connection alive st).result = Except.error e) →
      (get_connection alive st).state = st ∧
      (get_connection alive st).result = Except.error "连接池已满") := by
  obtain ⟨hlen, hsub, hnd, hbound⟩ := hinv
  have hsl : List.Sublist (scanIter alive st.in_use [] st.pool).1 st.pool := by
    have := scanIter_fst_sublist alive st.in_use [] st.pool
    simpa using this
  cases hs2 : (scanIter alive st.in_use [] st.pool).2 with
  | some c =>
    constructor
    · constructor
      · rintro ⟨e, he⟩
        simp [get_connection, hs2] at he
      · rintro ⟨hnone, -⟩
        exact Option.noConfusion hnone
    · rintro ⟨e, he⟩
      simp [get_connection, hs2] at he
  | none =>
    by_cases hfit : (scanIter alive st.in_use [] st.pool).1.length < st.max_connections
    · constructor
      · constructor
        · rintro ⟨e, he⟩
          simp [get_connection, hs2, hfit] at he
        · rintro ⟨-, hge⟩
          omega
      · rintro ⟨e, he⟩
        simp [get_connection, hs2, hfit] at he
    · have hpool : (scanIter alive st.in_use [] st.pool).1 = st.pool :=
        hsl.eq_of_length (by have := hsl.length_le; omega)
      constructor
      · exact ⟨fun _ => ⟨rfl, by omega⟩, fun _ => ⟨"连接池已满", by simp [get_connection, hs2, hfit]⟩⟩
      · intro h
        refine ⟨?_, by simp [get_connection, hs2, hfit]⟩
        have hstate : (get_connection alive st).state =
            { st with pool := (scanIter alive st.in_use [] st.pool).1 } := by
          simp [get_connection, hs2, hfit]
        rw [hstate, hpool]

/-- C4 witness: with `max_connections = 1` and the single pool client in
use, acquisition raises and leaves the state untouched. -/
theorem pool_exhausted_iff_witness :
    (get_connection (fun _ => true) ⟨1, [0], {0}, 1⟩).result = Except.error "连接池已满" ∧
    (get_connection (fun _ => true) ⟨1, [0], {0}, 1⟩).state = ⟨1, [0], {0}, 1⟩ := by
  have h := (pool_exhausted_iff (fun _ => true) ⟨1, [0], {0}, 1⟩ (by decide)).2
    ⟨"连接池已满", by rfl⟩
  exact ⟨h.2, h.1⟩

/-- C6: an acquired client was not in use before the call, is in use after
it, and a second acquisition before releasing it always returns a
different client. -/
theorem no_double_checkout (alive : Nat → Bool) (st : PoolState) (hinv : PoolInv st) (c : Nat)
    (hok : (get_connection alive st).result = Except.ok c) :
    c ∉ st.in_use ∧ c ∈ (get_connection alive st).state.in_use ∧
    (∀ alive2 c2,
      (get_connection alive2 (get_connection alive st).state).result = Except.ok c2 →
      c2 ≠ c) := by
  obtain ⟨hnot, hins, hmem⟩ := get_connection_ok alive st hinv c hok
  refine ⟨hnot, by rw [hins]; exact Finset.mem_insert_self c _, ?_⟩
  intro alive2 c2 h2 heq
  obtain ⟨hnot2, -, -⟩ :=
    get_connection_ok alive2 _ (get_connection_inv alive st hinv) c2 h2
  rw [hins] at hnot2
  exact hnot2 (heq ▸ Finset.mem_insert_self c st.in_use)

/-- C6 witness: on a fresh pool of size 5 the first acquire returns client
0, which is in use afterwards, and any second acquire returns a different
client. -/
theorem no_double_checkout_witness :
    0 ∉ (SSHConnectionPool_mk 5).in_use ∧
    0 ∈ (get_connection (fun _ => true) (SSHConnectionPool_mk 5)).state.in_use ∧
    (∀ alive2 c2,
      (get_connection alive2
        (get_connection (fun _ => true) (SSHConnectionPool_mk 5)).state).result =
        Except.ok c2 → c2 ≠ 0) :=
  no_double_checkout (fun _ => true) (SSHConnectionPool_mk 5) (by decide) 0 (by rfl)

/-- C7: releasing a client that is not marked in use is a no-op (no
exception, state unchanged); releasing an in-use client removes it from
`in_use` only, so it stays a pool member (returns to idle). -/
theorem release_defensive (st : PoolState) (c : Nat) :
    (c ∉ st.in_use → release_connection st c = st) ∧
    (c ∈ st.in_use →
      (release_connection st c).in_use = st.in_use.erase c ∧
      (release_connection st c).pool = st.pool ∧
      (release_connection st c).max_connections = st.max_connections ∧
      c ∉ (release_connection st c).in_use ∧
      ((∀ x ∈ st.in_use, x ∈ st.pool) → c ∈ (release_connection st c).pool)) := by
  constructor
  · intro h
    unfold release_connection
    rw [if_neg h]
  · intro h
    unfold release_connection
    rw [if_pos h]
    exact ⟨rfl, rfl, rfl, Finset.not_mem_erase c _, fun hsub => hsub c h⟩

/-- C7 witness: releasing client 0 when it is not in use leaves the state
unchanged; releasing it when in use erases it from `in_use` and keeps it in
the pool. -/
theorem release_defensive_witness :
    release_connection ⟨5, [0], ∅, 1⟩ 0 = ⟨5, [0], ∅, 1⟩ ∧
    (release_connection ⟨5, [0], {0}, 1⟩ 0).in_use = ({0} : Finset Nat).erase 0 ∧
    0 ∈ (release_connection ⟨5, [0], {0}, 1⟩ 0).pool :=
  ⟨(release_defensive ⟨5, [0], ∅, 1⟩ 0).1 (by decide),
   ((release_defensive ⟨5, [0], {0}, 1⟩ 0).2 (by decide)).1,
   ((release_defensive ⟨5, [0], {0}, 1⟩ 0).2 (by decide)).2.2.2.2 (by decide)⟩



theorem get_connection_error_in_use (alive : Nat → Bool) (st : PoolState) (e : String)
    (h : (get_connection alive st).result = Except.error e) :
    (get_connection alive st).state.in_use = st.in_use := by
  cases hs2 : (scanIter alive st.in_use [] st.pool).2 with
  | some c => simp [get_connection, hs2] at h
  | none =>
    by_cases hfit : (scanIter alive st.in_use [] st.pool).1.length < st.max_connections
    · simp [get_connection, hs2, hfit] at h
    · simp [get_connection, hs2, hfit]

theorem get_connection_state_max (alive : Nat → Bool) (st : PoolState) :
    (get_connection alive st).state.max_connections = st.max_connections :=
  applyOp_max st (PoolOp.acquire alive)

/-- C3: every exception raised during acquisition or execution is converted
into the triple `("", str(e), -1)`; nothing propagates past `execute`
(modelled by `execute` being a total function into `ExecOut`), and the
stderr field carries exactly the exception message. -/
theorem execute_contains_errors (alive : Nat → Bool)
    (run : Nat → String → Int → Except String (List Nat × List Nat × Int))
    (st : PoolState) (cmd : String) (t : Int) (e : String)
    (h : (get_connection alive st).result = Except.error e ∨
      ∃ c, (get_connection alive st).result = Except.ok c ∧ run c cmd t = Except.error e) :
    (execute alive run st cmd t).stdout = "" ∧
    (execute alive run st cmd t).stderr = e ∧
    (execute alive run st cmd t).exit_code = -1 ∧
    (e ≠ "" → (execute alive run st cmd t).stderr ≠ "") := by
  rcases hG : get_connection alive st with ⟨res, st1⟩
  rcases h with h | ⟨c, hok, hrun⟩
  · rw [hG] at h
    have hres : res = Except.error e := h
    subst hres
    refine ⟨?_, ?_, ?_, ?_⟩ <;> simp [execute, hG]
  · rw [hG] at hok
    have hres : res = Except.ok c := hok
    subst hres
    refine ⟨?_, ?_, ?_, ?_⟩ <;> simp [execute, hG, hrun]

/-- C3 witness: acquiring on a zero-capacity pool raises, and `execute`
returns the error triple with the exception message as stderr. -/
theorem execute_contains_errors_witness :
    (execute (fun _ => true) (fun _ _ _ => Except.error "连接超时")
      (SSHConnectionPool_mk 0) "ls" 60).stdout = "" ∧
    (execute (fun _ => true) (fun _ _ _ => Except.error "连接超时")
      (SSHConnectionPool_mk 0) "ls" 60).stderr = "连接池已满" ∧
    (execute (fun _ => true) (fun _ _ _ => Except.error "连接超时")
      (SSHConnectionPool_mk 0) "ls" 60).exit_code = -1 := by
  have h := execute_contains_errors (fun _ => true) (fun _ _ _ => Except.error "连接超时")
    (SSHConnectionPool_mk 0) "ls" 60 "连接池已满" (Or.inl (by rfl))
  exact ⟨h.1, h.2.1, h.2.2.1⟩

/-- C5: on every exit path of `execute` an acquired client is released, so
the in-use set after the call equals the in-use set before it (the
`finally` block of `_get_client` releases whenever a client was assigned,
and the failure path of acquisition assigns none). -/
theorem execute_guaranteed_release (alive : Nat → Bool)
    (run : Nat → String → Int → Except String (List Nat × List Nat × Int))
    (st : PoolState) (cmd : String) (t : Int) (hinv : PoolInv st) :
    (execute alive run st cmd t).state.in_use = st.in_use ∧
    (execute alive run st cmd t).state.max_connections = st.max_connections ∧
    (execute alive run st cmd t).state.pool = (get_connection alive st).state.pool ∧
    (execute alive run st cmd t).state.next_id = (get_connection alive st).state.next_id ∧
    (∀ c, (get_connection alive st).result = Except.ok c →
      c ∉ (execute alive run st cmd t).state.in_use) := by
  rcases hG : get_connection alive st with ⟨res, st1⟩
  cases res with
  | error e =>
    have hiu : st1.in_use = st.in_use := by
      have := get_connection_error_in_use alive st e (by rw [hG])
      rwa [hG] at this
    have hmax : st1.max_connections = st.max_connections := by
      have := get_connection_state_max alive st
      rwa [hG] at this
    refine ⟨by simp [execute, hG, hiu], by simp [execute, hG, hmax],
      by simp [execute, hG], by simp [execute, hG], ?_⟩
    intro c hc
    have hcc : (Except.error e : Except String Nat) = Except.ok c := hc
    cases hcc
  | ok c =>
    obtain ⟨hnot, hins, -⟩ := get_connection_ok alive st hinv c (by rw [hG])
    rw [hG] at hins
    have hrel : (release_connection st1 c).in_use = st.in_use := by
      unfold release_connection
      rw [if_pos (by rw [hins]; exact Finset.mem_insert_self c _), hins,
        Finset.erase_insert hnot]
    have hrelmax : (release_connection st1 c).max_connections = st1.max_connections := by
      unfold release_connection
      by_cases hc : c ∈ st1.in_use
      · rw [if_pos hc]
      · rw [if_neg hc]
    have hmax : st1.max_connections = st.max_connections := by
      have := get_connection_state_max alive st
      rwa [hG] at this
    have hstate2 : (execute alive run st cmd t).state = release_connection st1 c := by
      cases hr : run c cmd t with
      | ok v =>
        obtain ⟨ob, eb, code⟩ := v
        simp [execute, hG, hr]
      | error e2 => simp [execute, hG, hr]
    have hrelpool : (release_connection st1 c).pool = st1.pool := by
      unfold release_connection
      by_cases hc : c ∈ st1.in_use
      · rw [if_pos hc]
      · rw [if_neg hc]
    have hrelnext : (release_connection st1 c).next_id = st1.next_id := by
      unfold release_connection
      by_cases hc : c ∈ st1.in_use
      · rw [if_pos hc]
      · rw [if_neg hc]
    refine ⟨by rw [hstate2, hrel], by rw [hstate2, hrelmax, hmax],
      by rw [hstate2]; exact hrelpool, by rw [hstate2]; exact hrelnext, ?_⟩
    intro c' hc'
    have hcc : (Except.ok c : Except String Nat) = Except.ok c' := hc'
    obtain rfl : c = c' := by cases hcc; rfl
    rw [hstate2, hrel]
    exact hnot

/-- C5 witness: a failing command on a fresh pool of size 5 — the acquired
client is released, restoring the empty in-use set. -/
theorem execute_guaranteed_release_witness :
    (execute (fun _ => true) (fun _ _ _ => Except.error "timeout")
      (SSHConnectionPool_mk 5) "ls" 60).state.in_use = (SSHConnectionPool_mk 5).in_use ∧
    (∀ c, (get_connection (fun _ => true) (SSHConnectionPool_mk 5)).result = Except.ok c →
      c ∉ (execute (fun _ => true) (fun _ _ _ => Except.error "timeout")
        (SSHConnectionPool_mk 5) "ls" 60).state.in_use) := by
  have h := execute_guaranteed_release (fun _ => true) (fun _ _ _ => Except.error "timeout")
    (SSHConnectionPool_mk 5) "ls" 60 (by decide)
  exact ⟨h.1, h.2.2.2.2⟩


/-- C2 (failing input): with the pool `[0, 1]`, client 0 dead, client 1
live, both idle, `get_connection` does not return the live idle client 1.
Removing client 0 inside the `for client in self.pool` loop shifts the list
while the iterator advances, so client 1 is skipped, and a brand-new client
2 is created and returned instead; the literal index-based loop `scanFrom`
reaches the end of the scan without finding client 1. -/
theorem get_connection_skips_live_idle :
    ((fun c => c == 1) : Nat → Bool) 1 = true ∧
    1 ∈ (⟨5, [0, 1], ∅, 2⟩ : PoolState).pool ∧
    1 ∉ (⟨5, [0, 1], ∅, 2⟩ : PoolState).in_use ∧
    scanFrom (fun c => c == 1) ∅ [0, 1] 0 = ([1], none) ∧
    (get_connection (fun c => c == 1) ⟨5, [0, 1], ∅, 2⟩).result = Except.ok 2 ∧
    2 ∉ (⟨5, [0, 1], ∅, 2⟩ : PoolState).pool ∧
    (get_connection (fun c => c == 1) ⟨5, [0, 1], ∅, 2⟩).state.pool = [1, 2] := by
  refine ⟨rfl, by decide, by decide, ?_, by rfl, by decide, by rfl⟩
  rw [scanFrom_eq_scanIter (fun c => c == 1) ∅ [0, 1] (by decide)]
  rfl

unseal utf8IgnoreAux utf8SubstituteAux in
/-- C8 (counterexample): the source decodes with `errors='ignore'`, not
with substitution: on `b"a\xffb"` it yields `"ab"`, while the decoding the
claim describes (each undecodable byte replaced by U+FFFD) yields
`"a\uFFFDb"`; the two differ, and the code's output contains no marker of
the invalid byte. -/
theorem decode_ignore_not_substitute :
    utf8IgnoreStr [0x61, 0xFF, 0x62] = "ab" ∧
    utf8SubstituteStr [0x61, 0xFF, 0x62] = "a\uFFFDb" ∧
    utf8IgnoreStr [0x61, 0xFF, 0x62] ≠ utf8SubstituteStr [0x61, 0xFF, 0x62] ∧
    replacementChar ∉ (utf8IgnoreAux [0x61, 0xFF, 0x62]) := by
  exact ⟨by decide, by decide, by decide, by decide⟩

/-- C8 (amended): `execute` decodes stdout and stderr as UTF-8 with
undecodable bytes silently dropped (`errors='ignore'`): an invalid byte
such as `0xFF` contributes nothing to the decoded text, and on success the
returned strings are exactly the ignore-decodings of the raw bytes. -/
theorem decode_drops_invalid_bytes :
    (∀ bs : List Nat, utf8IgnoreStr (0xFF :: bs) = utf8IgnoreStr bs) ∧
    (∀ (alive : Nat → Bool)
      (run : Nat → String → Int → Except String (List Nat × List Nat × Int))
      (st : PoolState) (cmd : String) (t : Int) (c : Nat)
      (out_bytes err_bytes : List Nat) (code : Int),
      (get_connection alive st).result = Except.ok c →
      run c cmd t = Except.ok (out_bytes, err_bytes, code) →
      (execute alive run st cmd t).stdout = utf8IgnoreStr out_bytes ∧
      (execute alive run st cmd t).stderr = utf8IgnoreStr err_bytes ∧
      (execute alive run st cmd t).exit_code = code) := by
  constructor
  · intro bs
    show String.mk (utf8IgnoreAux (255 :: bs)) = String.mk (utf8IgnoreAux bs)
    rw [utf8IgnoreAux.eq_def]
    norm_num
  · intro alive run st cmd t c out_bytes err_bytes code hok hrun
    rcases hG : get_connection alive st with ⟨res, st1⟩
    rw [hG] at hok
    have hres : res = Except.ok c := hok
    subst hres
    refine ⟨?_, ?_, ?_⟩ <;> simp [execute, hG, hrun]

/-- C8 witness: a lone `0xFF` before `b` is dropped, and a successful
command's outputs are the ignore-decodings of its raw bytes. -/
theorem decode_drops_invalid_bytes_witness :
    utf8IgnoreStr [0xFF, 0x62] = utf8IgnoreStr [0x62] ∧
    (execute (fun _ => true) (fun _ _ _ => Except.ok ([0x61, 0xFF], [0xFF, 0x62], 0))
      (SSHConnectionPool_mk 5) "ls" 60).stdout = utf8IgnoreStr [0x61, 0xFF] ∧
    (execute (fun _ => true) (fun _ _ _ => Except.ok ([0x61, 0xFF], [0xFF, 0x62], 0))
      (SSHConnectionPool_mk 5) "ls" 60).stderr = utf8IgnoreStr [0xFF, 0x62] := by
  have h := decode_drops_invalid_bytes.2 (fun _ => true)
    (fun _ _ _ => Except.ok ([0x61, 0xFF], [0xFF, 0x62], 0))
    (SSHConnectionPool_mk 5) "ls" 60 0 [0x61, 0xFF] [0xFF, 0x62] 0 (by rfl) (by rfl)
  exact ⟨decode_drops_invalid_bytes.1 [0x62], h.1, h.2.1⟩

/-- C9 (failing input `SSH_POOL_MAX_CONNECTIONS=10`): the executor's pool
is built by `SSHConnectionPool()` with no argument, so its
`max_connections` is the hard default 5 and differs from the configured
value 10 — the config variable is never wired into the pool. -/
theorem pool_size_ignores_config :
    sshExecutor_pool.max_connections = 5 ∧
    sshPoolMaxConnections (some 10) = 10 ∧
    sshExecutor_pool.max_connections ≠ sshPoolMaxConnections (some 10) ∧
    sshPoolMaxConnections none = 5 := by
  exact ⟨rfl, rfl, by decide, rfl⟩

/-- C10: the async wrapper returns exactly what a direct call to `execute`
with the same arguments on the same pool state returns — offloading through
`run_in_executor` adds no observable behaviour. -/
theorem execute_async_eq_execute (alive : Nat → Bool)
    (run : Nat → String → Int → Except String (List Nat × List Nat × Int))
    (st : PoolState) (cmd : String) (t : Int) :
    execute_async alive run st cmd t = execute alive run st cmd t := rfl

end SSH
